import Mathlib

/-!
Verification of the libcyphal presentation-layer shared-object lifecycle
(`include/libcyphal/presentation/shared_object.hpp`).

The C++ code is embedded shallowly:

* `UnRefNode` objects live in a heap modelled as a total function
  `Nat → UnRefNode`; a C++ pointer is an `Option Nat` (`none` = `nullptr`,
  `some i` = address of object `i`).  The pointer surgery of
  `linkAsUnreferenced` / `unlinkIfReferenced` is replayed statement by
  statement on that heap; a dereference of a null pointer makes
  `linkAsUnreferenced` return `none` (in C++ this is undefined behaviour).
* `SharedObject`'s `std::size_t ref_count_` is a natural number together
  with the modulus `2 ^ 64` applied wherever the C++ increment/decrement
  can wrap.
* The cooperative executor (`spinOnce` with its ledger drain) is not part
  of the excerpt, so it is modelled from the spec, see `spinOnce` below.
-/

namespace Libcyphal

/-- Width modulus of `std::size_t` on the target platform (64-bit). -/
def sizeW : Nat := 2 ^ 64

/-- Embedding of `detail::UnRefNode`: the two intrusive links.
A C++ pointer is `Option Nat` (`none` is `nullptr`). -/
structure UnRefNode where
  prev_node : Option Nat := none
  next_node : Option Nat := none
deriving DecidableEq

/-- The object heap: every address holds an `UnRefNode`. -/
def Heap : Type := Nat → UnRefNode

/-- Store to the `prev_node` field of the node at address `i`. -/
def setPrev (h : Heap) (i : Nat) (v : Option Nat) : Heap :=
  fun j => if j = i then { h j with prev_node := v } else h j

/-- Store to the `next_node` field of the node at address `i`. -/
def setNext (h : Heap) (i : Nat) (v : Option Nat) : Heap :=
  fun j => if j = i then { h j with next_node := v } else h j

/-- Embedding of `UnRefNode::linkAsUnreferenced(UnRefNode& origin)`,
executed by the node at address `self` with anchor at address `origin`.
The four C++ assignments are replayed in order:

    next_node                   = &origin;
    prev_node                   = origin.prev_node;
    origin.prev_node->next_node = this;
    origin.prev_node            = this;

The third statement dereferences `origin.prev_node`; if that pointer is
null at that moment the C++ has undefined behaviour, modelled as `none`. -/
def linkAsUnreferenced (h : Heap) (self origin : Nat) : Option Heap :=
  if (h self).prev_node = none ∧ (h self).next_node = none then
    let h1 := setNext h self (some origin)
    let h2 := setPrev h1 self ((h1 origin).prev_node)
    match (h2 origin).prev_node with
    | none => none
    | some t =>
      let h3 := setNext h2 t (some self)
      let h4 := setPrev h3 origin (some self)
      some h4
  else
    some h

/-- Embedding of `UnRefNode::unlinkIfReferenced()` for the node at address
`self`.  The C++ body (taken when both links are non-null):

    prev_node->next_node = next_node;
    next_node->prev_node = prev_node;
    next_node = nullptr;
    prev_node = nullptr;

The first statement reads `this->next_node` before anything is written, so
its value is `some n`; the second reads `this->prev_node`, which the first
statement cannot have changed (it only writes a `next_node` field), so its
value is `some p`.  No null pointer is dereferenced on this path. -/
def unlinkIfReferenced (h : Heap) (self : Nat) : Heap :=
  match (h self).prev_node, (h self).next_node with
  | some p, some n =>
    let h1 := setNext h p (some n)
    let h2 := setPrev h1 n (some p)
    let h3 := setNext h2 self none
    let h4 := setPrev h3 self none
    h4
  | _, _ => h

/-- Invariant I1 for a single node: the two links are both null or both
non-null, never mixed. -/
def I1 (nd : UnRefNode) : Prop := nd.prev_node = none ↔ nd.next_node = none

/-- Invariant I1 for every node of the heap. -/
def I1all (h : Heap) : Prop := ∀ i, I1 (h i)

/-- I1 for every node of a heap produced by a fallible operation (holds
vacuously when the operation faulted on a null dereference). -/
def OptI1all : Option Heap → Prop :=
  fun o => ∀ h, o = some h → I1all h

/-- Embedding of `SharedObject`'s counter state: `std::size_t ref_count_`,
kept as a natural number below `sizeW`. -/
structure SharedObject where
  ref_count_ : Nat := 0
deriving DecidableEq

/-- `SharedObject::isReferenced`: `return ref_count_ > 0;`. -/
def isReferenced (o : SharedObject) : Bool := decide (o.ref_count_ > 0)

/-- `SharedObject::retain`: `++ref_count_;` — a `std::size_t` increment,
i.e. addition modulo `2 ^ 64`, with no overflow check. -/
def retain (o : SharedObject) : SharedObject :=
  ⟨(o.ref_count_ + 1) % sizeW⟩

/-- `SharedObject::release`: `--ref_count_; return ref_count_ == 0;` — a
`std::size_t` decrement (wrapping modulo `2 ^ 64` if the debug-only
assertion `ref_count_ > 0` is violated), then the zero test on the new
value. -/
def release (o : SharedObject) : SharedObject × Bool :=
  let c := (o.ref_count_ + (sizeW - 1)) % sizeW
  (⟨c⟩, c == 0)

/-- A retain/release call on a single `SharedObject`. -/
inductive RefOp where
  | retainOp : RefOp
  | releaseOp : RefOp
deriving DecidableEq

/-- Run a sequence of `retain()`/`release()` calls on a `SharedObject`,
collecting the boolean results of the `release()` calls in order. -/
def runOps (o : SharedObject) : List RefOp → SharedObject × List Bool
  | [] => (o, [])
  | RefOp.retainOp :: rest => runOps (retain o) rest
  | RefOp.releaseOp :: rest =>
    let rb := release o
    let rec' := runOps rb.1 rest
    (rec'.1, rb.2 :: rec'.2)

/-- Number of `retain()` calls in a sequence. -/
def countRetains (ops : List RefOp) : Nat :=
  (ops.filter (fun op => op = RefOp.retainOp)).length

/-- Number of `release()` calls in a sequence. -/
def countReleases (ops : List RefOp) : Nat :=
  (ops.filter (fun op => op = RefOp.releaseOp)).length

/-- The claimed precondition of spec property 8.1: the number of retains is
greater than or equal to the number of releases at every prefix. -/
def Admissible (ops : List RefOp) : Prop :=
  ∀ k, countReleases (ops.take k) ≤ countRetains (ops.take k)

/-- Expected `release()` results along a run whose current count is `c`:
a `release()` reports `true` exactly when it brings the count to zero,
i.e. when the retains and releases seen so far (including it) balance. -/
def expectedFlags (c : Nat) : List RefOp → List Bool
  | [] => []
  | RefOp.retainOp :: rest => expectedFlags (c + 1) rest
  | RefOp.releaseOp :: rest => decide (c = 1) :: expectedFlags (c - 1) rest

/-- `MemoryError` failure of object creation (`libcyphal/errors.hpp` is not
part of the excerpt; the error is a distinguished unit value per the spec's
error taxonomy). -/
inductive Failure where
  | MemoryError : Failure
deriving DecidableEq

/-- Outcome of `SharedObject::createWithPmr`: the returned pointer, the
final value of the by-reference `out_failure` parameter, and the list of
objects that were in-place constructed during the call. -/
structure CreateResult where
  ptr : Option Nat
  out_failure : Option Failure
  constructed : List Nat
deriving DecidableEq

/-- Embedding of `SharedObject::createWithPmr`.  The arena's single
`allocator.allocate(1)` call is modelled by its outcome `alloc`
(`some p` = raw storage at `p`, `none` = allocation failure; the spec's
arena contract is `allocate(count) -> storage-or-null`).  On success the
object is constructed in place and the pointer returned, leaving
`out_failure` untouched; on failure `out_failure` is set to `MemoryError`,
nothing is constructed, `nullptr` is returned, and the allocation is not
retried. -/
def createWithPmr (alloc : Option Nat) (f0 : Option Failure) : CreateResult :=
  match alloc with
  | some p => { ptr := some p, out_failure := f0, constructed := [p] }
  | none => { ptr := none, out_failure := some Failure.MemoryError, constructed := [] }

/-- Modelled from the spec: per-object state of the executor's world — the
reference counts, the Unreferenced-Object Ledger (a FIFO list of object
ids pending destruction), and the set of objects whose `destroy()` has
run.  The executor itself (`spinOnce`, the ledger drain) is not part of
the source excerpt; §4.3 of the spec defines it. -/
structure ExecState where
  counts : Nat → Nat
  ledger : List Nat
  destroyed : List Nat

/-- Events observable during a spin, in order: a user-callback action ran,
or an object's `destroy()` was invoked by the ledger drain. -/
inductive Event where
  | cbRan : Nat → Event
  | destroyRan : Nat → Event
deriving DecidableEq

/-- A single retain/release performed by user code inside a callback. -/
inductive CbAction where
  | retainObj : Nat → CbAction
  | releaseObj : Nat → CbAction
deriving DecidableEq

/-- Modelled from the spec (§4.1, §4.3): the holder reacts to a retain by
unlinking the object from the ledger if present (resurrection), and to a
release that reaches zero by appending the object at the ledger's tail. -/
def applyAction (st : ExecState) (act : CbAction) : ExecState :=
  match act with
  | CbAction.retainObj i =>
    { st with
      counts := fun j => if j = i then st.counts i + 1 else st.counts j,
      ledger := st.ledger.filter (fun j => j ≠ i) }
  | CbAction.releaseObj i =>
    let c := st.counts i - 1
    { st with
      counts := fun j => if j = i then c else st.counts j,
      ledger := if c = 0 then st.ledger ++ [i] else st.ledger }

/-- Modelled from the spec (§4.3): run the due callbacks of one spin, in
order, logging one event per executed action. -/
def runCallbacks (st : ExecState) : List CbAction → ExecState × List Event
  | [] => (st, [])
  | act :: rest =>
    let stepped := runCallbacks (applyAction st act) rest
    (stepped.1,
      (match act with
       | CbAction.retainObj i => Event.cbRan i
       | CbAction.releaseObj i => Event.cbRan i) :: stepped.2)

/-- Modelled from the spec (§4.2): `drainAll` — destroy every ledger entry
in linkage (FIFO) order, emptying the ledger, with one `destroy()` event
per entry. -/
def drainLedger (st : ExecState) : ExecState × List Event :=
  ({ st with ledger := [], destroyed := st.destroyed ++ st.ledger },
    st.ledger.map Event.destroyRan)

/-- Modelled from the spec (§4.3): `spinOnce` — execute the spin's due
callbacks, then, before returning, perform a full ledger drain. -/
def spinOnce (st : ExecState) (cbs : List CbAction) : ExecState × List Event :=
  let ran := runCallbacks st cbs
  let drained := drainLedger ran.1
  (drained.1, ran.2 ++ drained.2)

/-- `true` for callback events, `false` for destroy events. -/
def Event.isCallback : Event → Bool
  | Event.cbRan _ => true
  | Event.destroyRan _ => false

/-- A concrete heap: the ledger anchor at address `0`, self-linked (empty
ledger); every other address holds a default-constructed, unlinked node. -/
def ledgerHeap0 : Heap :=
  fun j => if j = 0 then ⟨some 0, some 0⟩ else ⟨none, none⟩

/-- A concrete heap: anchor `0` and node `1` forming a two-element circle
(node `1` is linked into the ledger); other nodes unlinked. -/
def ledgerHeap1 : Heap :=
  fun j => if j = 0 then ⟨some 1, some 1⟩
    else if j = 1 then ⟨some 0, some 0⟩ else ⟨none, none⟩

/-- A concrete heap in which every node satisfies I1 but the links are not
back-pointer coherent: node `0` points at the unlinked nodes `1` and `2`. -/
def mixedSourceHeap : Heap :=
  fun j => if j = 0 then ⟨some 1, some 2⟩ else ⟨none, none⟩

/-- A concrete heap of default-constructed nodes only (in particular a
default-constructed, never self-linked anchor). -/
def emptyHeap : Heap := fun _ => ⟨none, none⟩

end Libcyphal

namespace Libcyphal

/-- `sizeW` is positive. -/
theorem sizeW_pos : 0 < sizeW := by
  unfold sizeW
  positivity

/-- Behaviour of `release()` at an in-range positive count. -/
theorem release_spec (n : Nat) (hpos : 0 < n) (hlt : n < sizeW) :
    release ⟨n⟩ = (⟨n - 1⟩, decide (n = 1)) := by
  unfold release
  have h1 : n + (sizeW - 1) = (n - 1) + sizeW := by omega
  have h2 : (n + (sizeW - 1)) % sizeW = n - 1 := by
    rw [h1, Nat.add_mod_right]
    exact Nat.mod_eq_of_lt (by omega)
  simp only [h2]
  have : ((n - 1) == 0) = decide (n = 1) := by
    rcases Nat.eq_or_lt_of_le hpos with h | h
    · simp [← h]
    · have hne1 : n ≠ 1 := by omega
      have hne : n - 1 ≠ 0 := by omega
      simp [hne, hne1]
  rw [this]

/-- C1: for a `SharedObject` whose reference count is `n` with
`0 < n < 2 ^ 64` (the debug-assertion precondition together with the
`std::size_t` range), `release()` leaves the count at `n - 1` and returns
`true` exactly when `n = 1`, i.e. exactly when the count reached zero on
this call. -/
theorem release_decrements_and_reports_zero (n : Nat) (hpos : 0 < n) (hlt : n < sizeW) :
    release ⟨n⟩ = (⟨n - 1⟩, decide (n = 1)) :=
  release_spec n hpos hlt

/-- Witness for C1 at `n = 2`: the count drops to `1` and `release`
returns `false`. -/
theorem release_decrements_and_reports_zero_witness :
    release ⟨2⟩ = (⟨1⟩, false) := by
  have h := release_decrements_and_reports_zero 2 (by decide)
    (by unfold sizeW; decide)
  simpa using h

/-- The reference count after `k` consecutive `retain()` calls: it is the
start count plus `k`, reduced modulo `2 ^ 64`. -/
theorem retain_iterate (k c : Nat) (hc : c < sizeW) :
    retain^[k] ⟨c⟩ = ⟨(c + k) % sizeW⟩ := by
  induction k with
  | zero =>
    simp [Nat.mod_eq_of_lt hc]
  | succ k ih =>
    rw [Function.iterate_succ_apply', ih]
    unfold retain
    have h : ((c + k) % sizeW + 1) % sizeW = (c + (k + 1)) % sizeW := by
      rw [Nat.mod_add_mod, Nat.add_assoc]
    simp only [h]

/-- Reading the written node after `setNext`. -/
theorem setNext_self (h : Heap) (i : Nat) (v : Option Nat) :
    setNext h i v i = { h i with next_node := v } := by
  simp [setNext]

/-- Reading another node after `setNext`. -/
theorem setNext_ne (h : Heap) (i j : Nat) (v : Option Nat) (hj : j ≠ i) :
    setNext h i v j = h j := by
  simp [setNext, hj]

/-- Reading the written node after `setPrev`. -/
theorem setPrev_self (h : Heap) (i : Nat) (v : Option Nat) :
    setPrev h i v i = { h i with prev_node := v } := by
  simp [setPrev]

/-- Reading another node after `setPrev`. -/
theorem setPrev_ne (h : Heap) (i j : Nat) (v : Option Nat) (hj : j ≠ i) :
    setPrev h i v j = h j := by
  simp [setPrev, hj]

/-- `linkAsUnreferenced` of an unlinked node `s` into a self-linked anchor
`a` (the empty ledger): the resulting heap, described pointwise. -/
theorem linkAs_self_linked (h : Heap) (s a : Nat) (hne : s ≠ a)
    (hs : h s = ⟨none, none⟩) (ha : h a = ⟨some a, some a⟩) :
    linkAsUnreferenced h s a =
      some (fun j => if j = s then ⟨some a, some a⟩
            else if j = a then ⟨some s, some s⟩ else h j) := by
  have hane : a ≠ s := Ne.symm hne
  simp only [linkAsUnreferenced, setNext, setPrev, hs, ha, hane, if_false]
  norm_num [hane]
  funext j
  by_cases hjs : j = s
  · simp [hjs, setNext, setPrev, hne, hane, hs]
  · by_cases hja : j = a
    · simp [hjs, hja, setNext, setPrev, hne, hane, ha]
    · simp [hjs, hja, setNext, setPrev]

/-- `linkAsUnreferenced` of an unlinked node `s` into an anchor `a` whose
current predecessor is `t ≠ a` (a non-empty ledger): `s` is spliced
immediately before the anchor, i.e. appended at the logical tail. -/
theorem linkAs_append (h : Heap) (s a t : Nat) (hsa : s ≠ a) (hst : s ≠ t) (hta : t ≠ a)
    (hs : h s = ⟨none, none⟩) (ha : (h a).prev_node = some t) :
    linkAsUnreferenced h s a =
      some (fun j => if j = s then ⟨some t, some a⟩
            else if j = t then ⟨(h t).prev_node, some s⟩
            else if j = a then ⟨some s, (h a).next_node⟩ else h j) := by
  have hane : a ≠ s := Ne.symm hsa
  have htne : t ≠ s := Ne.symm hst
  have hate : a ≠ t := Ne.symm hta
  simp only [linkAsUnreferenced, setNext, setPrev, hs, hane, if_false]
  norm_num [hane, ha]
  funext j
  by_cases hjs : j = s
  · simp [hjs, setNext, setPrev, hsa, hst, hta, hane, htne, hate, hs]
  · by_cases hjt : j = t
    · simp [hjs, hjt, setNext, setPrev, hsa, hst, hta, hane, htne, hate]
    · by_cases hja : j = a
      · simp [hjs, hjt, hja, setNext, setPrev, hsa, hst, hta, hane, htne, hate]
      · simp [hjs, hjt, hja, setNext, setPrev]

/-- C2: linking distinct unlinked nodes `A`, `B`, `C` (in that order) into
an empty ledger with self-linked anchor `a` appends each at the logical
tail: traversal along `next_node` from the anchor visits `A`, `B`, `C` and
returns to the anchor — drain order equals unreference order (FIFO). -/
theorem linkAs_fifo_order (h : Heap) (a A B C : Nat)
    (hAa : A ≠ a) (hBa : B ≠ a) (hCa : C ≠ a)
    (hAB : A ≠ B) (hAC : A ≠ C) (hBC : B ≠ C)
    (ha : h a = ⟨some a, some a⟩) (hA : h A = ⟨none, none⟩)
    (hB : h B = ⟨none, none⟩) (hC : h C = ⟨none, none⟩) :
    ∃ h3, ((linkAsUnreferenced h A a).bind fun h1 =>
            (linkAsUnreferenced h1 B a).bind fun h2 =>
              linkAsUnreferenced h2 C a) = some h3 ∧
      (h3 a).next_node = some A ∧ (h3 A).next_node = some B ∧
      (h3 B).next_node = some C ∧ (h3 C).next_node = some a := by
  have hBA : B ≠ A := Ne.symm hAB
  have hCA : C ≠ A := Ne.symm hAC
  have hCB : C ≠ B := Ne.symm hBC
  have haA : a ≠ A := Ne.symm hAa
  have haB : a ≠ B := Ne.symm hBa
  have haC : a ≠ C := Ne.symm hCa
  rw [linkAs_self_linked h A a hAa hA ha, Option.some_bind]
  rw [linkAs_append _ B a A hBa hBA hAa (by simp [hBA, hBa, hB]) (by simp [haA]),
    Option.some_bind]
  rw [linkAs_append _ C a B hCa hCB hBa (by simp [hCB, hCA, hCa, hC]) (by simp [haB, haA])]
  refine ⟨_, rfl, ?_, ?_, ?_, ?_⟩
  · simp [haA, haB, haC]
  · simp [hAC, hAB, hAa]
  · simp [hBC, hBa, hBA]
  · simp [hCa, hCB, hCA]

/-- Witness for C2: anchor `0`, nodes `1`, `2`, `3` linked in that order
into the empty ledger `ledgerHeap0`. -/
theorem linkAs_fifo_order_witness :
    ∃ h3, ((linkAsUnreferenced ledgerHeap0 1 0).bind fun h1 =>
            (linkAsUnreferenced h1 2 0).bind fun h2 =>
              linkAsUnreferenced h2 3 0) = some h3 ∧
      (h3 0).next_node = some 1 ∧ (h3 1).next_node = some 2 ∧
      (h3 2).next_node = some 3 ∧ (h3 3).next_node = some 0 :=
  linkAs_fifo_order ledgerHeap0 0 1 2 3 (by decide) (by decide) (by decide)
    (by decide) (by decide) (by decide) rfl rfl rfl rfl

/-- Structure eta for `UnRefNode`. -/
theorem UnRefNode.eta (nd : UnRefNode) : nd = ⟨nd.prev_node, nd.next_node⟩ := rfl

/-- C5: `linkAsUnreferenced` is idempotent — on a node whose `prev_node`
and `next_node` are both non-null (already linked into a ledger) it
returns the heap verbatim: every node's links, and hence the whole list
structure, are unchanged, with no duplicate insertion. -/
theorem linkAs_idempotent_when_linked (h : Heap) (s a : Nat)
    (hp : (h s).prev_node ≠ none) (_hn : (h s).next_node ≠ none) :
    linkAsUnreferenced h s a = some h := by
  unfold linkAsUnreferenced
  rw [if_neg (fun hc => hp hc.1)]

/-- Witness for C5 on the two-element circle `ledgerHeap1`: relinking the
already linked node `1` changes nothing. -/
theorem linkAs_idempotent_when_linked_witness :
    linkAsUnreferenced ledgerHeap1 1 0 = some ledgerHeap1 :=
  linkAs_idempotent_when_linked ledgerHeap1 1 0 (by decide) (by decide)

/-- `linkAsUnreferenced` of an unlinked node `s` into an anchor `a` whose
predecessor pointer holds `t` (any `t`, including `t = a`): the full
pointwise description of the resulting heap. -/
theorem linkAs_unlinked (h : Heap) (s a t : Nat) (hsa : s ≠ a) (hst : s ≠ t)
    (hs : h s = ⟨none, none⟩) (ha : (h a).prev_node = some t) :
    linkAsUnreferenced h s a =
      some (fun j => if j = s then ⟨some t, some a⟩
            else if j = a then ⟨some s, if a = t then some s else (h a).next_node⟩
            else if j = t then ⟨(h t).prev_node, some s⟩
            else h j) := by
  have hane : a ≠ s := Ne.symm hsa
  have htne : t ≠ s := Ne.symm hst
  simp only [linkAsUnreferenced, setNext, setPrev, hs, hane, if_false]
  norm_num [hane, ha]
  funext j
  by_cases hjs : j = s
  · simp [hjs, setNext, setPrev, hsa, hst, hane, htne, hs]
  · by_cases hja : j = a
    · by_cases hat : a = t
      · simp [hjs, hja, hat, setNext, setPrev, hane, htne]
      · simp [hjs, hja, hat, setNext, setPrev, hane, htne, Ne.symm hat]
    · by_cases hjt : j = t
      · have hta : t ≠ a := fun he => hja (hjt.trans he)
        simp [hjs, hja, hjt, setNext, setPrev, htne, hta, Ne.symm hta]
      · simp [hjs, hja, hjt, setNext, setPrev]

/-- C9: `linkAsUnreferenced` on an unlinked node dereferences the anchor's
`prev_node` unconditionally.  With a default-constructed anchor (both
links null) the dereferenced pointer is null — undefined behaviour,
modelled as `none`; whenever the anchor's `prev_node` is non-null the call
completes. -/
theorem linkAs_anchor_prev_deref :
    (∀ (h : Heap) (s a : Nat), h s = ⟨none, none⟩ → (h a).prev_node = none →
      linkAsUnreferenced h s a = none) ∧
    (∀ (h : Heap) (s a t : Nat), (h a).prev_node = some t →
      ∃ h', linkAsUnreferenced h s a = some h') := by
  constructor
  · intro h s a hs ha
    by_cases hsa : a = s
    · subst hsa
      simp [linkAsUnreferenced, setNext, setPrev, hs]
    · simp [linkAsUnreferenced, setNext, setPrev, hs, hsa, ha]
  · intro h s a t ha
    by_cases hguard : (h s).prev_node = none ∧ (h s).next_node = none
    · have hsa : a ≠ s := by
        intro he
        rw [he, hguard.1] at ha
        cases ha
      simp [linkAsUnreferenced, setNext, setPrev, hguard.1, hguard.2, hsa, ha]
    · unfold linkAsUnreferenced
      rw [if_neg hguard]
      exact ⟨h, rfl⟩

/-- Witness for C9: on the all-default heap (default-constructed anchor
`0`), linking node `1` dereferences a null pointer (`none`); on
`ledgerHeap0` whose anchor is self-linked, the same call completes. -/
theorem linkAs_anchor_prev_deref_witness :
    linkAsUnreferenced emptyHeap 1 0 = none ∧
    ∃ h', linkAsUnreferenced ledgerHeap0 1 0 = some h' :=
  ⟨linkAs_anchor_prev_deref.1 emptyHeap 1 0 rfl rfl,
   linkAs_anchor_prev_deref.2 ledgerHeap0 1 0 0 rfl⟩

/-- C6: `unlinkIfReferenced` is the idempotent inverse of
`linkAsUnreferenced`.  On a linked node it reconnects the two neighbours
and nulls the node's own links, touching no other node; on an unlinked
node it is a no-op; and on any unlinked node and locally well-formed
ledger, `linkAsUnreferenced` followed by `unlinkIfReferenced` restores the
heap exactly. -/
theorem unlink_inverse_of_link :
    (∀ (h : Heap) (s p n : Nat), (h s).prev_node = some p → (h s).next_node = some n →
      p ≠ s → n ≠ s →
      (unlinkIfReferenced h s) s = ⟨none, none⟩ ∧
      ((unlinkIfReferenced h s) p).next_node = some n ∧
      ((unlinkIfReferenced h s) n).prev_node = some p ∧
      ∀ j, j ≠ s → j ≠ p → j ≠ n → unlinkIfReferenced h s j = h j) ∧
    (∀ (h : Heap) (s : Nat), (h s).prev_node = none → (h s).next_node = none →
      unlinkIfReferenced h s = h) ∧
    (∀ (h : Heap) (s a t : Nat), s ≠ a → s ≠ t → h s = ⟨none, none⟩ →
      (h a).prev_node = some t → (h t).next_node = some a →
      ∃ h', linkAsUnreferenced h s a = some h' ∧ unlinkIfReferenced h' s = h) := by
  refine ⟨?_, ?_, ?_⟩
  · intro h s p n hp hn hps hns
    refine ⟨?_, ?_, ?_, ?_⟩
    · simp [unlinkIfReferenced, hp, hn, setPrev, setNext]
    · by_cases hpn : p = n
      · simp [unlinkIfReferenced, hp, hn, setPrev, setNext, hps, hns, hpn]
      · simp [unlinkIfReferenced, hp, hn, setPrev, setNext, hps, hns, hpn]
    · simp [unlinkIfReferenced, hp, hn, setPrev, setNext, hns]
    · intro j hjs hjp hjn
      simp [unlinkIfReferenced, hp, hn, setPrev, setNext, hjs, hjp, hjn]
  · intro h s hp hn
    simp [unlinkIfReferenced, hp, hn]
  · intro h s a t hsa hst hs ha ht
    by_cases hta : t = a
    · subst hta
      have hafull : h t = ⟨some t, some t⟩ := by
        conv_lhs => rw [UnRefNode.eta (h t)]
        rw [ha, ht]
      rw [linkAs_self_linked h s t hsa hs hafull]
      refine ⟨_, rfl, ?_⟩
      funext j
      by_cases hjs : j = s
      · subst hjs
        simp [unlinkIfReferenced, setPrev, setNext, hsa, hs]
      · by_cases hja : j = t
        · subst hja
          simp [unlinkIfReferenced, setPrev, setNext, hsa, Ne.symm hsa, hafull]
        · simp [unlinkIfReferenced, setPrev, setNext, hsa, Ne.symm hsa, hjs, hja]
    · rw [linkAs_append h s a t hsa hst hta hs ha]
      refine ⟨_, rfl, ?_⟩
      have hat : a ≠ t := Ne.symm hta
      funext j
      by_cases hjs : j = s
      · subst hjs
        simp [unlinkIfReferenced, setPrev, setNext, hsa, hst, hta, hat, hs]
      · by_cases hjt : j = t
        · subst hjt
          conv_rhs => rw [UnRefNode.eta (h j)]
          rw [ht]
          simp [unlinkIfReferenced, setPrev, setNext, hsa, hst, hta, hat,
            Ne.symm hsa, Ne.symm hst]
        · by_cases hja : j = a
          · subst hja
            conv_rhs => rw [UnRefNode.eta (h j)]
            rw [ha]
            simp [unlinkIfReferenced, setPrev, setNext, hsa, hst, hta, hat,
              Ne.symm hsa, Ne.symm hst]
          · simp [unlinkIfReferenced, setPrev, setNext, hsa, hst, hta, hat,
              Ne.symm hsa, Ne.symm hst, hjs, hjt, hja]

/-- Witness for C6: on `ledgerHeap0`, linking node `1` before the
self-linked anchor `0` and then unlinking it restores the original heap. -/
theorem unlink_inverse_of_link_witness :
    ∃ h', linkAsUnreferenced ledgerHeap0 1 0 = some h' ∧
      unlinkIfReferenced h' 1 = ledgerHeap0 :=
  unlink_inverse_of_link.2.2 ledgerHeap0 1 0 0 (by decide) (by decide) rfl rfl rfl

/-- Counterexample to C7 as stated: `mixedSourceHeap` satisfies I1 at
every node, yet a single `linkAsUnreferenced` call (node `3` into anchor
`0`, whose stale `prev_node` names the unlinked node `1`) completes and
leaves node `1` with a null `prev_node` and a non-null `next_node` —
a mixed node, violating I1. -/
theorem I1_not_preserved_from_I1_alone :
    I1all mixedSourceHeap ∧
    ∃ h', linkAsUnreferenced mixedSourceHeap 3 0 = some h' ∧
      (h' 1).prev_node = none ∧ (h' 1).next_node = some 3 := by
  constructor
  · intro i
    by_cases hi : i = 0 <;> simp [mixedSourceHeap, I1, hi]
  · rw [linkAs_unlinked mixedSourceHeap 3 0 1 (by decide) (by decide) rfl rfl]
    exact ⟨_, rfl, by decide, by decide⟩

/-- C7 amended: I1 holds after default construction, and is preserved by
`linkAsUnreferenced` and `unlinkIfReferenced` provided the nodes whose
links the call rewrites are themselves unmixed-and-linked beforehand: for
`linkAsUnreferenced`, the node named by the anchor's `prev_node` must have
a non-null `prev_node`; for `unlinkIfReferenced`, the node's two
neighbours must be genuinely linked in the corresponding direction.  (On a
back-pointer-coherent circular ledger these side conditions always hold.) -/
theorem I1_preserved_amended :
    I1 ⟨none, none⟩ ∧
    (∀ (h : Heap) (s a t : Nat), I1all h → (h a).prev_node = some t →
      (h t).prev_node ≠ none → OptI1all (linkAsUnreferenced h s a)) ∧
    (∀ (h : Heap) (s : Nat), I1all h →
      (∀ p, (h s).prev_node = some p → (h p).prev_node ≠ none) →
      (∀ n, (h s).next_node = some n → (h n).next_node ≠ none) →
      I1all (unlinkIfReferenced h s)) := by
  refine ⟨by simp [I1], ?_, ?_⟩
  · intro h s a t hI ha htp h' he
    by_cases hguard : (h s).prev_node = none ∧ (h s).next_node = none
    · have hsfull : h s = ⟨none, none⟩ := by
        rw [UnRefNode.eta (h s), hguard.1, hguard.2]
      have hsa : s ≠ a := by
        intro he2
        rw [← he2, hguard.1] at ha
        cases ha
      have hst : s ≠ t := by
        intro he2
        rw [← he2] at htp
        exact htp hguard.1
      rw [linkAs_unlinked h s a t hsa hst hsfull ha] at he
      injection he with he
      subst he
      intro i
      by_cases his : i = s
      · simp [his, I1]
      · by_cases hia : i = a
        · by_cases hat2 : a = t
          · simp [his, hia, hat2, I1, Ne.symm hst]
          · have hanext : (h a).next_node ≠ none := by
              intro hnone
              have hIa := hI a
              rw [I1] at hIa
              rw [hIa.2 hnone] at ha
              cases ha
            simp [his, hia, hat2, I1, Ne.symm hsa, hanext]
        · by_cases hit : i = t
          · have hta2 : t ≠ a := fun he => hia (hit.trans he)
            simp [his, hia, hit, I1, Ne.symm hst, hta2, htp]
          · simp only [his, hia, hit, if_false]
            exact hI i
    · unfold linkAsUnreferenced at he
      rw [if_neg hguard] at he
      injection he with he
      subst he
      exact hI
  · intro h s hI hp hn
    cases hps : (h s).prev_node with
    | none =>
      simp only [unlinkIfReferenced, hps]
      exact hI
    | some p =>
      cases hns : (h s).next_node with
      | none =>
        simp only [unlinkIfReferenced, hps, hns]
        exact hI
      | some n =>
        have hpp : (h p).prev_node ≠ none := hp p hps
        have hnn : (h n).next_node ≠ none := hn n hns
        intro i
        by_cases his : i = s
        · simp [unlinkIfReferenced, hps, hns, setPrev, setNext, his, I1]
        · by_cases hin : i = n
          · have hns2 : n ≠ s := fun he => his (hin.trans he)
            by_cases hip : i = p
            · have hnp : n = p := by rw [← hin, hip]
              have hps3 : p ≠ s := hnp ▸ hns2
              simp [unlinkIfReferenced, hps, hns, setPrev, setNext, his, hin, hip,
                I1, hns2, hnp, hps3]
            · have hnp : n ≠ p := fun he => hip (hin.trans he)
              simp [unlinkIfReferenced, hps, hns, setPrev, setNext, his, hin, hip,
                I1, hns2, hnp, hnn]
          · by_cases hip : i = p
            · have hps2 : p ≠ s := fun he => his (hip.trans he)
              have hpn : p ≠ n := fun he => hin (hip.trans he)
              simp [unlinkIfReferenced, hps, hns, setPrev, setNext, his, hin, hip,
                I1, hps2, hpn, hpp]
            · simp only [unlinkIfReferenced, hps, hns, setPrev, setNext]
              simp only [his, hin, hip, if_false]
              exact hI i

/-- Witness for the amended C7: on the two-element circular ledger
`ledgerHeap1` (whose nodes are coherent), linking the unlinked node `2`
preserves I1 everywhere. -/
theorem I1_preserved_amended_witness :
    OptI1all (linkAsUnreferenced ledgerHeap1 2 0) :=
  I1_preserved_amended.2.1 ledgerHeap1 2 0 1
    (by
      intro i
      by_cases h0 : i = 0
      · simp [ledgerHeap1, I1, h0]
      · by_cases h1 : i = 1 <;> simp [ledgerHeap1, I1, h0, h1])
    rfl (by decide)

/-- C10: the reference count is `std::size_t` arithmetic modulo `2 ^ 64`
and `retain()` has no overflow check: `2 ^ 64` unmatched `retain()` calls
starting from a fresh object wrap the count back to zero, after which
`isReferenced()` is `false` despite the outstanding references. -/
theorem retain_overflow_wraps_to_zero :
    retain^[sizeW] ⟨0⟩ = ⟨0⟩ ∧ isReferenced (retain^[sizeW] ⟨0⟩) = false := by
  have h := retain_iterate sizeW 0 sizeW_pos
  rw [Nat.zero_add, Nat.mod_self] at h
  exact ⟨h, by rw [h]; rfl⟩

/-- C8: `createWithPmr` has exactly two outcomes, decided by the single
allocation attempt: on allocation success it returns the pointer to the
one in-place constructed object and leaves `out_failure` exactly as the
caller passed it; on allocation failure it sets `out_failure` to
`MemoryError`, constructs nothing, and returns null. -/
theorem createWithPmr_two_outcomes (alloc : Option Nat) (f0 : Option Failure) :
    (∃ p, alloc = some p ∧
      createWithPmr alloc f0 = { ptr := some p, out_failure := f0, constructed := [p] }) ∨
    (alloc = none ∧
      createWithPmr alloc f0 =
        { ptr := none, out_failure := some Failure.MemoryError, constructed := [] }) := by
  cases alloc with
  | some p => exact Or.inl ⟨p, rfl, rfl⟩
  | none => exact Or.inr ⟨rfl, rfl⟩

/-- Every event emitted by the callback phase of a spin is a callback
event, never a destroy event. -/
theorem runCallbacks_events_are_callbacks (cbs : List CbAction) :
    ∀ (st : ExecState) (e : Event), e ∈ (runCallbacks st cbs).2 → e.isCallback = true := by
  induction cbs with
  | nil =>
    intro st e he
    simp [runCallbacks] at he
  | cons act rest ih =>
    intro st e he
    simp only [runCallbacks, List.mem_cons] at he
    rcases he with h1 | h2
    · cases act with
      | retainObj i => rw [h1]; rfl
      | releaseObj i => rw [h1]; rfl
    · exact ih _ _ h2

/-- C3: `spinOnce` performs a full ledger drain before returning: the
ledger is empty on return, every object still pending at the end of the
callback phase (its last reference released during a callback of this
spin and not resurrected) has been destroyed by return, and the event
trace is all callback events followed by all destroy events — no
`destroy()` runs while a user callback frame of the same spin is active. -/
theorem spinOnce_drains_before_return (st : ExecState) (cbs : List CbAction) :
    (spinOnce st cbs).1.ledger = [] ∧
    (∀ i, i ∈ (runCallbacks st cbs).1.ledger → i ∈ (spinOnce st cbs).1.destroyed) ∧
    (spinOnce st cbs).2 =
      (runCallbacks st cbs).2 ++ ((runCallbacks st cbs).1.ledger.map Event.destroyRan) ∧
    (∀ e, e ∈ (runCallbacks st cbs).2 → e.isCallback = true) ∧
    (∀ e, e ∈ (runCallbacks st cbs).1.ledger.map Event.destroyRan → e.isCallback = false) := by
  refine ⟨rfl, ?_, rfl, runCallbacks_events_are_callbacks cbs st, ?_⟩
  · intro i hi
    simp only [spinOnce, drainLedger]
    exact List.mem_append_right _ hi
  · intro e he
    rcases List.mem_map.mp he with ⟨x, _, rfl⟩
    rfl

/-- Witness for C3: object `5` holds one reference; a callback releases
it during the spin; when `spinOnce` returns, the ledger is empty and `5`
has been destroyed. -/
theorem spinOnce_drains_before_return_witness :
    (spinOnce ⟨fun _ => 1, [], []⟩ [CbAction.releaseObj 5]).1.ledger = [] ∧
    5 ∈ (spinOnce ⟨fun _ => 1, [], []⟩ [CbAction.releaseObj 5]).1.destroyed :=
  ⟨(spinOnce_drains_before_return ⟨fun _ => 1, [], []⟩ [CbAction.releaseObj 5]).1,
   (spinOnce_drains_before_return ⟨fun _ => 1, [], []⟩ [CbAction.releaseObj 5]).2.1 5
     (by simp [runCallbacks, applyAction])⟩

/-- Counting retains: cons of a retain. -/
theorem countRetains_cons_retain (rest : List RefOp) :
    countRetains (RefOp.retainOp :: rest) = countRetains rest + 1 := by
  simp [countRetains]

/-- Counting retains: cons of a release. -/
theorem countRetains_cons_release (rest : List RefOp) :
    countRetains (RefOp.releaseOp :: rest) = countRetains rest := by
  simp [countRetains]

/-- Counting releases: cons of a retain. -/
theorem countReleases_cons_retain (rest : List RefOp) :
    countReleases (RefOp.retainOp :: rest) = countReleases rest := by
  simp [countReleases]

/-- Counting releases: cons of a release. -/
theorem countReleases_cons_release (rest : List RefOp) :
    countReleases (RefOp.releaseOp :: rest) = countReleases rest + 1 := by
  simp [countReleases]

/-- Running a retain/release sequence from count `c`: provided the counts
stay admissible relative to `c` and cannot overflow, the final count is
`c + #retains − #releases` and the `release()` results are exactly
`expectedFlags`. -/
theorem runOps_characterization (ops : List RefOp) :
    ∀ c : Nat, c < sizeW → c + countRetains ops < sizeW →
    (∀ k, countReleases (ops.take k) ≤ c + countRetains (ops.take k)) →
    runOps ⟨c⟩ ops = (⟨c + countRetains ops - countReleases ops⟩, expectedFlags c ops) := by
  induction ops with
  | nil =>
    intro c hc _ _
    simp [runOps, countRetains, countReleases, expectedFlags]
  | cons op rest ih =>
    intro c hc hsum hadm
    cases op with
    | retainOp =>
      rw [countRetains_cons_retain] at hsum
      have hretain : retain ⟨c⟩ = ⟨c + 1⟩ := by
        show (⟨(c + 1) % sizeW⟩ : SharedObject) = ⟨c + 1⟩
        rw [Nat.mod_eq_of_lt (by omega)]
      have hrec := ih (c + 1) (by omega) (by omega)
        (by
          intro k
          have hk := hadm (k + 1)
          rw [List.take_succ_cons, countRetains_cons_retain,
            countReleases_cons_retain] at hk
          omega)
      rw [show runOps ⟨c⟩ (RefOp.retainOp :: rest) = runOps (retain ⟨c⟩) rest from rfl,
        hretain, hrec, countRetains_cons_retain, countReleases_cons_retain]
      have hcount : c + 1 + countRetains rest = c + (countRetains rest + 1) := by omega
      rw [hcount]
      rfl
    | releaseOp =>
      rw [countRetains_cons_release] at hsum
      have hc1 : 0 < c := by
        have hk := hadm 1
        rw [show (RefOp.releaseOp :: rest).take 1 = [RefOp.releaseOp] from rfl,
          show countReleases [RefOp.releaseOp] = 1 from rfl,
          show countRetains [RefOp.releaseOp] = 0 from rfl] at hk
        omega
      have hrelease := release_spec c hc1 hc
      have hrec := ih (c - 1) (by omega) (by omega)
        (by
          intro k
          have hk := hadm (k + 1)
          rw [List.take_succ_cons, countRetains_cons_release,
            countReleases_cons_release] at hk
          omega)
      rw [show runOps ⟨c⟩ (RefOp.releaseOp :: rest) =
          ((runOps (release ⟨c⟩).1 rest).1,
            (release ⟨c⟩).2 :: (runOps (release ⟨c⟩).1 rest).2) from rfl]
      rw [show (release ⟨c⟩).1 = ⟨c - 1⟩ from by rw [hrelease]]
      rw [show (release ⟨c⟩).2 = decide (c = 1) from by rw [hrelease]]
      rw [hrec, countRetains_cons_release, countReleases_cons_release]
      have hcount : c + countRetains rest - (countReleases rest + 1) =
          c - 1 + countRetains rest - countReleases rest := by omega
      rw [hcount]
      rfl

/-- Counterexample to C4 as stated: the sequence retain, release, retain,
release satisfies the prefix condition (#retains ≥ #releases at every
prefix), yet `release()` returns `true` twice, not exactly once, and
`isReferenced()` is already false after the first release — before the
final matching release has executed. -/
theorem refcount_symmetry_cx :
    (∀ k, countReleases
        (([RefOp.retainOp, RefOp.releaseOp, RefOp.retainOp, RefOp.releaseOp]).take k) ≤
      countRetains
        (([RefOp.retainOp, RefOp.releaseOp, RefOp.retainOp, RefOp.releaseOp]).take k)) ∧
    (runOps ⟨0⟩ [RefOp.retainOp, RefOp.releaseOp, RefOp.retainOp, RefOp.releaseOp]).2 =
      [true, true] ∧
    isReferenced (runOps ⟨0⟩ [RefOp.retainOp, RefOp.releaseOp]).1 = false := by
  refine ⟨?_, ?_, ?_⟩
  · intro k
    match k with
    | 0 => decide
    | 1 => decide
    | 2 => decide
    | 3 => decide
    | m + 4 =>
      rw [List.take_of_length_le (by simp)]
      decide
  · decide
  · decide

/-- C4 amended: for every retain/release sequence with #retains ≥
#releases at every prefix (and fewer than `2 ^ 64` retains), the final
count is #retains − #releases — so `isReferenced()` is true after the
whole sequence iff retains strictly outnumber releases — and each
`release()` returns `true` exactly when it brings the running count to
zero, i.e. exactly at the releases after which the counts balance
(`expectedFlags`); it therefore returns true exactly once only when the
counts stay strictly positive until the final matching release. -/
theorem refcount_symmetry_amended (ops : List RefOp)
    (hadm : ∀ k, countReleases (ops.take k) ≤ countRetains (ops.take k))
    (hlen : countRetains ops < sizeW) :
    runOps ⟨0⟩ ops = (⟨countRetains ops - countReleases ops⟩, expectedFlags 0 ops) ∧
    isReferenced (runOps ⟨0⟩ ops).1 =
      decide (countReleases ops < countRetains ops) := by
  have h := runOps_characterization ops 0 sizeW_pos (by omega)
    (by intro k; have := hadm k; omega)
  rw [Nat.zero_add] at h
  refine ⟨h, ?_⟩
  rw [h]
  show decide (0 < countRetains ops - countReleases ops) =
    decide (countReleases ops < countRetains ops)
  exact decide_eq_decide.mpr (by
    have hle : countReleases ops ≤ countRetains ops := by
      have := hadm ops.length
      rw [List.take_length] at this
      exact this
    omega)

/-- Witness for the amended C4 at the sequence retain, retain, release,
release: final count `0`, flags `[false, true]`, `isReferenced` false. -/
theorem refcount_symmetry_amended_witness :
    runOps ⟨0⟩ [RefOp.retainOp, RefOp.retainOp, RefOp.releaseOp, RefOp.releaseOp] =
      (⟨0⟩, [false, true]) ∧
    isReferenced
      (runOps ⟨0⟩ [RefOp.retainOp, RefOp.retainOp, RefOp.releaseOp, RefOp.releaseOp]).1 =
      false := by
  have h := refcount_symmetry_amended
    [RefOp.retainOp, RefOp.retainOp, RefOp.releaseOp, RefOp.releaseOp]
    (by
      intro k
      match k with
      | 0 => decide
      | 1 => decide
      | 2 => decide
      | 3 => decide
      | m + 4 =>
        rw [List.take_of_length_le (by simp)]
        decide)
    (by decide)
  simpa using h

end Libcyphal
